import Mathlib

/-!
Verification development for the tab-o-txt editor core
(`src/sheet.rs`, `src/editor.rs`): a shallow embedding of the
sparse-grid sheet, the width inferencer, the serializer and the
viewport/cursor controller, together with theorems settling the
behavioural claims about them.
-/

namespace TabOTxt

/-- Display width of a single character, modelling the `unicode_width`
crate on the character ranges appearing in this development: control
characters have width 0, other Basic Latin characters width 1. -/
def charWidth (c : Char) : Nat :=
  if c.toNat < 0x20 ∨ c.toNat = 0x7f then 0 else 1

/-- Display width of a string: the sum of its characters' widths,
modelling `UnicodeWidthStr::width`. -/
def uwidth (s : String) : Nat :=
  s.data.foldl (fun n c => n + charWidth c) 0

/-- Rust `str::trim`: remove leading and trailing whitespace. -/
def rustTrim (s : String) : String :=
  ⟨((s.data.dropWhile Char.isWhitespace).reverse.dropWhile Char.isWhitespace).reverse⟩

/-- Split a character list at every occurrence of `sep`, keeping empty
pieces, as Rust `str::split` does: the result always has one more piece
than there are separators. -/
def splitOnChar (sep : Char) : List Char → List (List Char)
  | [] => [[]]
  | c :: rest =>
    let r := splitOnChar sep rest
    if c = sep then [] :: r
    else
      match r with
      | [] => [[c]]
      | t :: ts => (c :: t) :: ts

/-- Rust `str::lines`: split on newlines, drop a final empty piece
(so a trailing newline does not create an extra empty line), and strip
one trailing carriage return from each line. -/
def rustLines (s : String) : List (List Char) :=
  let parts := splitOnChar '\n' s.data
  let parts := if parts.getLast? = some [] then parts.dropLast else parts
  parts.map (fun l => if l.getLast? = some '\r' then l.dropLast else l)

/-- The tokens of one line: the line split on tab characters
(Rust `line.split('\t')`), each token as a string. -/
def tabTokens (line : List Char) : List String :=
  (splitOnChar '\t' line).map (fun l => ⟨l⟩)

/-- `Sheet::measure_width`: width of a cell's content in tab-stop units,
`UnicodeWidthStr::width(content) / tab_size + 1` (integer division). -/
def measure_width (content : String) (tab_size : Nat) : Nat :=
  uwidth content / tab_size + 1

/-- The unit count the spec's words prescribe for a token:
`ceil(unicode_display_width(token) / tab_size) + 1`.  Modelled from the
spec for comparison with `measure_width`, which the source defines. -/
def specCeilUnits (content : String) (tab_size : Nat) : Nat :=
  (uwidth content + tab_size - 1) / tab_size + 1

/-- Consume the maximal run of empty tokens at the head of the list,
returning how many were consumed and the remainder; this models the
`while let Some(&following) = items.peek()` absorption loop inside
`Sheet::get_widths`. -/
def takeEmpties : List String → Nat × List String
  | [] => (0, [])
  | s :: rest =>
    if s = "" then
      let (n, r) := takeEmpties rest
      (n + 1, r)
    else (0, s :: rest)

/-- Insert `a` into `l` before position `i` (Rust `Vec::insert`). -/
def insertAt (l : List Nat) (i : Nat) (a : Nat) : List Nat :=
  l.take i ++ a :: l.drop i

/-- The inner reconciliation loop of `Sheet::get_widths`
(`while let Some(&prev_width) = widths.get(index)`), which matches one
token's width against the running `widths` vector.  `fuel` bounds the
iteration count; `widths.length + 2` always suffices, because every
iteration either advances `index`, or overwrites the last entry in
place and terminates on the following iteration. -/
def reconcile (fuel : Nat) (widths : List Nat) (index width : Nat)
    (has_more : Bool) : List Nat × Nat :=
  match fuel with
  | 0 => (widths, index)
  | fuel + 1 =>
    match widths.get? index with
    | none => (widths ++ [width], index + 1)
    | some prev =>
      if prev < width then
        if index = widths.length - 1 then
          reconcile fuel (widths.set index width) index width has_more
        else
          reconcile fuel widths (index + 1) (width - prev) has_more
      else if width < prev then
        (if has_more then insertAt (widths.set index width) (index + 1) (prev - width)
         else widths,
         index + 1)
      else
        (widths, index + 1)

/-- The per-line loop of `Sheet::get_widths` (`'outer: while let
Some(item) = items.next()`): measure each token, absorb the following
run of empty tokens, and reconcile against the running widths.  `fuel`
bounds the iteration count; the initial token count suffices since
every iteration consumes at least one token. -/
def lineLoop (tab : Nat) : Nat → List String → List Nat → Nat → List Nat
  | _, [], widths, _ => widths
  | 0, _ :: _, widths, _ => widths
  | fuel + 1, item :: rest, widths, index =>
    let w0 := uwidth item / tab + 1
    let te := takeEmpties rest
    let width := w0 + te.1
    let ri := reconcile (widths.length + 2) widths index width (!te.2.isEmpty)
    lineLoop tab fuel te.2 ri.1 ri.2

/-- `Sheet::get_widths`: infer the column widths (in tab-stop units)
of raw tab-delimited text. -/
def get_widths (content : String) (tab : Nat) : List Nat :=
  (rustLines content).foldl
    (fun widths line => lineLoop tab (tabTokens line).length (tabTokens line) widths 0) []

/-- The sparse cell store, modelling the
`HashMap<(usize, usize), Unit>` as an association list from `(col, row)`
coordinates to cell contents. -/
abbrev Units := List ((Nat × Nat) × String)

/-- Map lookup (`HashMap::get`). -/
def lookupU (us : Units) (k : Nat × Nat) : Option String :=
  (us.find? (fun e => e.1 = k)).map (fun e => e.2)

/-- Map removal (`HashMap::remove`, discarding the returned value). -/
def removeU (us : Units) (k : Nat × Nat) : Units :=
  us.filter (fun e => ¬ e.1 = k)

/-- Map insertion overwriting any existing entry (`HashMap::insert`,
also the `entry(pos).and_modify(..).or_insert_with(..)` upsert, since
both arms store the same value). -/
def insertU (us : Units) (k : Nat × Nat) (v : String) : Units :=
  removeU us k ++ [(k, v)]

/-- The tab-size construction parameter (`editor::Config`). -/
structure Config where
  tab_size : Nat
deriving DecidableEq, Repr

/-- The sheet: sparse cell store, logical `(cols, rows)` size, tab
size, per-column widths and their prefix sums (`sheet::Sheet`). -/
structure Sheet where
  units : Units
  size : Nat × Nat
  tab_size : Nat
  widths : List Nat
  accum_widths : List Nat
deriving DecidableEq, Repr

namespace Sheet

/-- `Sheet::new`: the empty sheet (note `widths = [0]` and
`accum_widths = [0, 1]`, exactly as the source initializes them). -/
def new : Sheet :=
  { units := []
    size := (1, 1)
    tab_size := 8
    widths := [0]
    accum_widths := [0, 1] }

/-- The accumulated-width rebuild loop (`let mut new_accum_widths =
vec![0]; for i in 0..widths.len() { push(widths[i] + new[i]) }`),
rendered as a recursion carrying the running sum. -/
def accumFrom (acc : Nat) : List Nat → List Nat
  | [] => [acc]
  | w :: ws => acc :: accumFrom (acc + w) ws

/-- `Sheet::content_at`. -/
def content_at (s : Sheet) (pos : Nat × Nat) : Option String :=
  lookupU s.units pos

/-- `Sheet::width_at`: bounds-checked lookup into `widths`. -/
def width_at (s : Sheet) (index : Nat) : Option Nat :=
  s.widths.get? index

/-- `Sheet::accum_width_at`: bounds-checked lookup into `accum_widths`. -/
def accum_width_at (s : Sheet) (index : Nat) : Option Nat :=
  s.accum_widths.get? index

/-- Maximum of a list of naturals (`Iterator::max`), `none` when empty. -/
def listMax? : List Nat → Option Nat
  | [] => none
  | x :: xs =>
    some (match listMax? xs with
          | none => x
          | some m => max x m)

/-- `Sheet::get_col_width`: the maximum width over all occupied cells
of the given column, `none` if the column holds no cell. -/
def get_col_width (s : Sheet) (index : Nat) : Option Nat :=
  listMax? ((s.units.filter (fun e => e.1.1 = index)).map
    (fun e => measure_width e.2 s.tab_size))

/-- `Sheet::is_col_empty`.  Faithful to the source, which iterates
`for row in 0..self.size.0` — the row loop is bounded by the COLUMN
count. -/
def is_col_empty (s : Sheet) (index : Nat) : Bool :=
  (List.range s.size.1).all (fun row => (lookupU s.units (index, row)).isNone)

/-- `Sheet::is_row_empty`.  Faithful to the source, which iterates
`for col in 0..self.size.1` — the column loop is bounded by the ROW
count. -/
def is_row_empty (s : Sheet) (index : Nat) : Bool :=
  (List.range s.size.2).all (fun col => (lookupU s.units (col, index)).isNone)

/-- `Sheet::remove_col`: shift every cell right of `index` one column
left, drop the column's width and resync `size.0`; no-op when `index`
is out of bounds. -/
def remove_col (s : Sheet) (index : Nat) : Sheet :=
  if ¬ index < s.size.1 then s
  else
    let units := (List.range' (index + 1) (s.size.1 - (index + 1))).foldl
      (fun us col =>
        (List.range s.size.2).foldl
          (fun us row =>
            match lookupU us (col, row) with
            | some v => insertU (removeU us (col, row)) (col - 1, row) v
            | none => us)
          us)
      s.units
    let widths := s.widths.eraseIdx index
    { s with units := units, widths := widths, size := (widths.length, s.size.2) }

/-- `Sheet::remove_row`: shift every cell in rows `index..size.1` one
row up and decrement `size.1`; no-op when `index` is out of bounds. -/
def remove_row (s : Sheet) (index : Nat) : Sheet :=
  if ¬ index < s.size.2 then s
  else
    let units := (List.range s.size.1).foldl
      (fun us col =>
        (List.range' index (s.size.2 - index)).foldl
          (fun us row =>
            match lookupU us (col, row) with
            | some v => insertU (removeU us (col, row)) (col, row - 1) v
            | none => us)
          us)
      s.units
    { s with units := units, size := (s.size.1, s.size.2 - 1) }

/-- The branching body of `Sheet::edit`, before the unconditional
`accum_widths` rebuild: the empty-text branch removes the cell and
compacts an emptied column/row; the non-empty branch upserts the
trimmed text, extends `size`, and refreshes the column's width. -/
def edit_core (s : Sheet) (pos : Nat × Nat) (buf : String) : Sheet :=
  if buf = "" then
    let s := { s with units := removeU s.units pos }
    let s := if is_col_empty s pos.1 then remove_col s pos.1 else s
    if is_row_empty s pos.2 then remove_row s pos.2 else s
  else
    let s := { s with
      units := insertU s.units pos (rustTrim buf)
      size := (max s.size.1 (pos.1 + 1), max s.size.2 (pos.2 + 1)) }
    match s.widths.get? pos.1 with
    | some n =>
      let width := (get_col_width s pos.1).getD 0
      if n ≠ width then { s with widths := s.widths.set pos.1 width } else s
    | none =>
      { s with widths := s.widths ++ [measure_width buf s.tab_size] }

/-- `Sheet::edit`: the branching body followed by the unconditional
rebuild of `accum_widths` as the prefix sums of `widths`. -/
def edit (s : Sheet) (pos : Nat × Nat) (buf : String) : Sheet :=
  let s := edit_core s pos buf
  { s with accum_widths := accumFrom 0 s.widths }

/-- One line of `Sheet::from_str`'s cell-loading loop: insert each
non-empty token at the running column, then skip
`widths[col].saturating_sub(width)` following items
(`items.nth(diff - 1)`).  `fuel` bounds the iteration count; the
initial token count suffices since every iteration consumes at least
one token. -/
def loadLine (widths : List Nat) (tab row : Nat) : Nat → Nat → List String → Units → Units
  | _, _, [], us => us
  | 0, _, _ :: _, us => us
  | fuel + 1, col, s :: rest, us =>
    let us := if s ≠ "" then insertU us (col, row) s else us
    let width := measure_width s tab
    let diff := (widths.getD col 0) - width
    loadLine widths tab row fuel (col + 1) (rest.drop diff) us

/-- `Sheet::from_str`: infer widths, build the prefix sums, and load
every line's cells. -/
def from_str (buf : String) (config : Config) : Sheet :=
  let widths := get_widths buf config.tab_size
  let accum_widths := accumFrom 0 widths
  let fold := (rustLines buf).foldl
    (fun (acc : Nat × Units) line =>
      (acc.1 + 1,
       loadLine widths config.tab_size acc.1 (tabTokens line).length 0 (tabTokens line) acc.2))
    (0, [])
  { units := fold.2
    size := (widths.length, fold.1)
    tab_size := config.tab_size
    widths := widths
    accum_widths := accum_widths }

end Sheet

/-- The width/size invariant claimed for mutated sheets: every entry
of `widths` is at least 1, and `size.0` equals `widths.len()`. -/
def WidthsInvariant (s : Sheet) : Prop :=
  (∀ w ∈ s.widths, 1 ≤ w) ∧ s.size.1 = s.widths.length

instance (s : Sheet) : Decidable (WidthsInvariant s) := by
  unfold WidthsInvariant
  infer_instance

/-- A run of `n` tab bytes (`b"\t".repeat(count)`). -/
def tabs (n : Nat) : String :=
  ⟨List.replicate n '\t'⟩

/-- The text-producing loop of `Editor::save`: for each row, emit each
present cell preceded by the pending tab count, where an absent cell
adds its column's width to the pending count.  Returns `none` where the
source panics: `width_at(col).unwrap()` on a missing width, or the
unchecked `usize` subtraction `widths[col] - width` when the cell's
content is wider than its column. -/
def serialize (s : Sheet) : Option String :=
  (List.range s.size.2).foldlM
    (fun out row => do
      let rc ← (List.range s.size.1).foldlM
        (fun (acc : String × Nat) col => do
          let w ← s.width_at col
          match s.content_at (col, row) with
          | some str =>
            let width := measure_width str s.tab_size
            if width ≤ w then
              pure (acc.1 ++ tabs acc.2 ++ str, 1 + (w - width))
            else
              none
          | none => pure (acc.1, acc.2 + w))
        (out, 0)
      pure (rc.1 ++ "\n"))
    ""

/-- `util::is_in_offset_bounds`: whether `val` lies in
`lbd..lbd + ofs`. -/
def is_in_offset_bounds (val lbd ofs : Nat) : Prop :=
  lbd ≤ val ∧ val < lbd + ofs

instance (val lbd ofs : Nat) : Decidable (is_in_offset_bounds val lbd ofs) := by
  unfold is_in_offset_bounds
  infer_instance

/-- `usize::saturating_add_signed`: add a signed delta to an unsigned
value, saturating at zero. -/
def satAddSigned (n : Nat) (x : Int) : Nat :=
  ((n : Int) + x).toNat

/-- Rust `Ord::clamp` on `usize` with lower bound 0. -/
def rclamp (v lo hi : Nat) : Nat :=
  max lo (min v hi)

/-- The editor's viewport state: cursor position and top-left drawing
corner, both `(col, row)` (fields `pos` and `corner` of `Editor`). -/
structure EState where
  pos : Nat × Nat
  corner : Nat × Nat
deriving DecidableEq, Repr

/-- `Editor::move_pos_by`: clamp the cursor into `[0, size]` on each
axis, then shift the corner by the same delta on any axis whose check
fails.  `tw`/`th` are the terminal's column/row counts.  Faithful to
the source, both arguments of the column check read
`accum_width_at(self.pos.0)` (never the corner), and the `unwrap`s on
those lookups are modelled by `Option`. -/
def move_pos_by (s : Sheet) (tw th : Nat) (st : EState) (x y : Int) : Option EState := do
  let p0 := rclamp (satAddSigned st.pos.1 x) 0 s.size.1
  let p1 := rclamp (satAddSigned st.pos.2 y) 0 s.size.2
  let a ← s.accum_width_at p0
  let b ← s.accum_width_at p0
  let c0 := if ¬ is_in_offset_bounds a b ((tw - 1) / s.tab_size)
            then satAddSigned st.corner.1 x else st.corner.1
  let c1 := if ¬ is_in_offset_bounds p1 st.corner.2 (th - 1)
            then satAddSigned st.corner.2 y else st.corner.2
  pure ⟨(p0, p1), (c0, c1)⟩

/-- Iterate `move_pos_by` over a list of `(dx, dy)` deltas; `none` as
soon as one call panics. -/
def applyMoves (s : Sheet) (tw th : Nat) (st : EState) : List (Int × Int) → Option EState
  | [] => some st
  | m :: ms => do
    let st1 ← move_pos_by s tw th st m.1 m.2
    applyMoves s tw th st1 ms

/-- Key codes distinguished by `Editor::navigate`'s match (crossterm
`KeyCode`, collapsed to the constructors the match inspects). -/
inductive KeyCode where
  | up | down | left | right | tab | enter | pageUp | pageDown | esc
  | backspace
  | f (n : Nat)
  | char (c : Char)
  | other
deriving DecidableEq, Repr

/-- The outcome of one recognized key in `Navigate` mode: a cursor
motion or a mode transition. -/
inductive NavAction where
  | move (dx dy : Int)
  | toEdit
  | toCommand
  | toQuit
deriving DecidableEq, Repr

/-- The key dispatch of `Editor::navigate`, arm for arm and in source
order (`shift` models whether the modifier set is exactly SHIFT).
`none` renders the final `_ => todo!()` arm, which panics at run time.
`th` is the terminal height, used by the PageUp/PageDown arms. -/
def navigate_key (th : Nat) (code : KeyCode) (shift : Bool) : Option NavAction :=
  match code, shift with
  | .up, _ => some (.move 0 (-1))
  | .enter, true => some (.move 0 (-1))
  | .left, _ => some (.move (-1) 0)
  | .tab, true => some (.move (-1) 0)
  | .down, _ => some (.move 0 1)
  | .enter, false => some (.move 0 1)
  | .right, _ => some (.move 1 0)
  | .tab, false => some (.move 1 0)
  | .pageDown, _ => some (.move 0 ((th - 1 : Nat) : Int))
  | .pageUp, _ => some (.move 0 (-((th - 1 : Nat) : Int)))
  | .char c, _ => if c = ':' then some .toCommand else none
  | .esc, _ => some .toQuit
  | .f n, _ => if n = 2 then some .toEdit else none
  | .backspace, _ => none
  | .other, _ => none

/-! ## Theorems -/

open Sheet

/-- C1: the round-trip property fails because serialization itself
fails: loading `"aaaaaaaaa\tb\nc\td\te\n"` infers widths `[1, 1, 1]`
while keeping the two-unit-wide cell `"aaaaaaaaa"` in column 0, so
`Editor::save` computes `widths[0] - width = 1 - 2`, an unchecked
`usize` subtraction that panics; the serializer therefore never
produces text to reload. -/
theorem c1_roundtrip_save_panics :
    serialize (Sheet.from_str "aaaaaaaaa\tb\nc\td\te\n" ⟨8⟩) = none := by
  decide

/-- C2: the `Editor::navigate` key dispatch reaches the `_ => todo!()`
arm — a panic, not a no-op — for any key outside the recognized set,
here the character key `x` with no modifier. -/
theorem c2_unrecognized_key_panics :
    navigate_key 24 (KeyCode.char 'x') false = none := by
  decide

/-- C3: deleting the cell `(0, 0)` of the two-row sheet loaded from
`"a\nb\n"` must (per the claim) only compact the now-empty row 0,
shifting `(0, 1)` down to `(0, 0)` and leaving `size = (1, 1)`; the
code instead also removes the still-occupied column 0 (its emptiness
check iterates rows `0..size.0`) and fails to shift `(0, 1)`, ending
with `size = (0, 1)` and the surviving cell stranded at `(0, 1)`. -/
theorem c3_compaction_bug :
    Sheet.content_at (Sheet.edit (Sheet.from_str "a\nb\n" ⟨8⟩) (0, 0) "") (0, 0) = none ∧
    Sheet.content_at (Sheet.edit (Sheet.from_str "a\nb\n" ⟨8⟩) (0, 0) "") (0, 1) = some "b" ∧
    (Sheet.edit (Sheet.from_str "a\nb\n" ⟨8⟩) (0, 0) "").size = (0, 1) := by
  decide

/-- C4 (counterexample): for the one-column token `"a"` at tab size 8
the program computes width `1` (floor division), while the claim's
formula `ceil(1 / 8) + 1` gives `2`. -/
theorem c4_counterexample :
    measure_width "a" 8 = 1 ∧ specCeilUnits "a" 8 = 2 ∧
    measure_width "a" 8 ≠ specCeilUnits "a" 8 := by
  decide

/-- C4 (amended): the program's display width in tab-stop units is
`floor(unicode_display_width(t) / tab_size) + 1`, and it is never less
than 1. -/
theorem c4_floor_width (t : String) (tab : Nat) :
    measure_width t tab = uwidth t / tab + 1 ∧ 1 ≤ measure_width t tab :=
  ⟨rfl, Nat.le_add_left 1 _⟩

/-- C9: width inference on `"a\tbb\t\tccc\n"` with tab size 8 yields
exactly three columns of widths 1, 2 and 1: `"a"` is one unit, `"bb"`
is one unit extended by one for the empty token following it, and
`"ccc"` is one unit. -/
theorem c9_worked_example :
    get_widths "a\tbb\t\tccc\n" 8 = [1, 2, 1] := by
  decide

theorem accumFrom_length (a : Nat) (ws : List Nat) :
    (accumFrom a ws).length = ws.length + 1 := by
  induction ws generalizing a with
  | nil => simp [accumFrom]
  | cons w ws ih => simp [accumFrom, ih]

theorem accumFrom_get? (ws : List Nat) :
    ∀ a i, i ≤ ws.length →
      (accumFrom a ws).get? i = some (a + (ws.take i).sum) := by
  induction ws with
  | nil =>
    intro a i hi
    have hz : i = 0 := by simpa using hi
    subst hz
    simp [accumFrom]
  | cons w ws ih =>
    intro a i hi
    cases i with
    | zero => simp [accumFrom]
    | succ i =>
      simp only [accumFrom, List.get?_cons_succ, List.take_succ_cons, List.sum_cons]
      rw [ih (a + w) i (by simpa using hi)]
      ring_nf

/-- C6: after every `edit` — with any position and text — the rebuilt
`accum_widths` has length `widths.len() + 1` and its entry `i` is the
sum of `widths[0..i]` for every valid `i`. -/
theorem c6_accum_prefix_sums (s : Sheet) (pos : Nat × Nat) (buf : String) :
    (Sheet.edit s pos buf).accum_widths.length = (Sheet.edit s pos buf).widths.length + 1 ∧
    ∀ i, i ≤ (Sheet.edit s pos buf).widths.length →
      (Sheet.edit s pos buf).accum_widths.get? i =
        some (((Sheet.edit s pos buf).widths.take i).sum) := by
  have hw : (Sheet.edit s pos buf).widths = (Sheet.edit_core s pos buf).widths := rfl
  have ha : (Sheet.edit s pos buf).accum_widths =
      accumFrom 0 (Sheet.edit_core s pos buf).widths := rfl
  rw [hw, ha]
  refine ⟨accumFrom_length 0 _, fun i hi => ?_⟩
  simpa using accumFrom_get? _ 0 i hi

/-- C6 (witness): the invariant instantiated after editing the fresh
sheet at `(0, 0)` with `"x"`, checked at index 1. -/
theorem c6_witness :
    (Sheet.edit Sheet.new (0, 0) "x").accum_widths.length =
      (Sheet.edit Sheet.new (0, 0) "x").widths.length + 1 ∧
    (Sheet.edit Sheet.new (0, 0) "x").accum_widths.get? 1 =
      some (((Sheet.edit Sheet.new (0, 0) "x").widths.take 1).sum) := by
  have h := c6_accum_prefix_sums Sheet.new (0, 0) "x"
  exact ⟨h.1, h.2 1 (by decide)⟩

theorem rclamp_le (v hi : Nat) : rclamp v 0 hi ≤ hi := by
  unfold rclamp
  omega

theorem move_pos_by_le (s : Sheet) (tw th : Nat) (st st' : EState) (x y : Int)
    (h : move_pos_by s tw th st x y = some st') :
    st'.pos.1 ≤ s.size.1 ∧ st'.pos.2 ≤ s.size.2 := by
  unfold move_pos_by at h
  dsimp only at h
  cases ha : s.accum_width_at (rclamp (satAddSigned st.pos.1 x) 0 s.size.1) with
  | none => rw [ha] at h; simp at h
  | some a =>
    rw [ha] at h
    simp only [Option.bind_eq_bind, Option.some_bind, Option.pure_def, Option.some_inj] at h
    subst h
    exact ⟨rclamp_le _ _, rclamp_le _ _⟩

theorem applyMoves_le (s : Sheet) (tw th : Nat) :
    ∀ (moves : List (Int × Int)) (st st' : EState),
      st.pos.1 ≤ s.size.1 → st.pos.2 ≤ s.size.2 →
      applyMoves s tw th st moves = some st' →
      st'.pos.1 ≤ s.size.1 ∧ st'.pos.2 ≤ s.size.2 := by
  intro moves
  induction moves with
  | nil =>
    intro st st' h1 h2 h
    simp only [applyMoves, Option.some_inj] at h
    subst h
    exact ⟨h1, h2⟩
  | cons m ms ih =>
    intro st st' h1 h2 h
    simp only [applyMoves, Option.bind_eq_bind] at h
    cases hm : move_pos_by s tw th st m.1 m.2 with
    | none => rw [hm] at h; simp at h
    | some st1 =>
      rw [hm] at h
      simp only [Option.some_bind] at h
      have hb := move_pos_by_le s tw th st st1 m.1 m.2 hm
      exact ih st1 st' hb.1 hb.2 h

/-- C5 (counterexample): on the fresh sheet (`size = (1, 1)`), one
`move_by(1, 0)` call succeeds and leaves `cursor.col = 1`, which is
NOT in `[0, size.col)`: Rust's `clamp(0, size.0)` is inclusive of
`size.0`. -/
theorem c5_counterexample :
    applyMoves Sheet.new 80 24 ⟨(0, 0), (0, 0)⟩ [((1 : Int), (0 : Int))] =
      some ⟨(1, 0), (0, 0)⟩ ∧
    ¬ (1 : Nat) < Sheet.new.size.1 := by
  decide

/-- C5 (amended): for every Sheet and every sequence of `move_by`
calls starting from cursor `(0, 0)`, whenever every call completes the
cursor ends within the CLOSED ranges `[0, size.col]` and
`[0, size.row]` — the upper bound is inclusive, since the source
clamps with `clamp(0, size)`. -/
theorem c5_cursor_clamped (s : Sheet) (tw th : Nat)
    (moves : List (Int × Int)) (st' : EState)
    (h : applyMoves s tw th ⟨(0, 0), (0, 0)⟩ moves = some st') :
    st'.pos.1 ≤ s.size.1 ∧ st'.pos.2 ≤ s.size.2 :=
  applyMoves_le s tw th moves ⟨(0, 0), (0, 0)⟩ st' (Nat.zero_le _) (Nat.zero_le _) h

/-- C5 (witness): the amended bound instantiated on the fresh sheet
after one rightward move, which parks the cursor at `col = size.col`. -/
theorem c5_witness :
    applyMoves Sheet.new 80 24 ⟨(0, 0), (0, 0)⟩ [((1 : Int), (0 : Int))] =
      some ⟨(1, 0), (0, 0)⟩ ∧
    ((1 : Nat) ≤ Sheet.new.size.1 ∧ (0 : Nat) ≤ Sheet.new.size.2) := by
  refine ⟨by decide, ?_⟩
  exact c5_cursor_clamped Sheet.new 80 24 [((1 : Int), (0 : Int))] ⟨(1, 0), (0, 0)⟩ (by decide)

theorem find?_removeU (us : Units) (k : Nat × Nat) :
    (removeU us k).find? (fun e => decide (e.1 = k)) = none := by
  unfold removeU
  induction us with
  | nil => simp
  | cons e us ih =>
    simp only [List.filter]
    by_cases he : e.1 = k
    · simp [he, ih]
    · simp [List.find?, he, ih]

theorem lookupU_insertU (us : Units) (k : Nat × Nat) (v : String) :
    lookupU (insertU us k v) k = some v := by
  unfold insertU lookupU
  rw [List.find?_append, find?_removeU]
  simp [List.find?]

theorem edit_core_units_of_ne (s : Sheet) (pos : Nat × Nat) (buf : String) (h : buf ≠ "") :
    (Sheet.edit_core s pos buf).units = insertU s.units pos (rustTrim buf) := by
  unfold Sheet.edit_core
  rw [if_neg h]
  dsimp only
  cases s.widths.get? pos.1 with
  | none => rfl
  | some n =>
    dsimp only
    split <;> rfl

/-- C10: editing with any non-empty text stores the text with leading
and trailing whitespace trimmed, so `content_at(pos)` afterwards is the
trimmed text — in particular a whitespace-only (but non-empty) text
leaves a present cell whose content is the empty string. -/
theorem c10_edit_stores_trimmed (s : Sheet) (pos : Nat × Nat) (buf : String)
    (h : buf ≠ "") :
    Sheet.content_at (Sheet.edit s pos buf) pos = some (rustTrim buf) := by
  have hu : (Sheet.edit s pos buf).units = (Sheet.edit_core s pos buf).units := rfl
  unfold Sheet.content_at
  rw [hu, edit_core_units_of_ne s pos buf h, lookupU_insertU]

/-- C10 (witness): editing the fresh sheet with `" x "` stores `"x"`;
editing it with the whitespace-only `" "` leaves a present cell whose
content is `""`. -/
theorem c10_witness :
    Sheet.content_at (Sheet.edit Sheet.new (0, 0) " x ") (0, 0) = some "x" ∧
    Sheet.content_at (Sheet.edit Sheet.new (0, 0) " ") (0, 0) = some "" := by
  constructor
  · have h := c10_edit_stores_trimmed Sheet.new (0, 0) " x " (by decide)
    rw [show rustTrim " x " = "x" from by decide] at h
    exact h
  · have h := c10_edit_stores_trimmed Sheet.new (0, 0) " " (by decide)
    rw [show rustTrim " " = "" from by decide] at h
    exact h

theorem mem_of_mem_eraseIdx_nat {ws : List Nat} {i : Nat} {w : Nat}
    (h : w ∈ ws.eraseIdx i) : w ∈ ws := by
  rw [List.eraseIdx_eq_take_drop_succ] at h
  rcases List.mem_append.mp h with h | h
  · exact List.take_subset i ws h
  · exact List.drop_subset (i + 1) ws h

theorem listMax?_ge (l : List Nat) (x : Nat) (hx : x ∈ l) :
    ∃ m, listMax? l = some m ∧ x ≤ m := by
  induction l with
  | nil => cases hx
  | cons y ys ih =>
    cases hys : listMax? ys with
    | none =>
      rcases List.mem_cons.mp hx with h | h
      · exact ⟨y, by simp [listMax?, hys], le_of_eq h⟩
      · obtain ⟨m, hm, _⟩ := ih h
        rw [hys] at hm
        cases hm
    | some m =>
      refine ⟨max y m, by simp [listMax?, hys], ?_⟩
      rcases List.mem_cons.mp hx with h | h
      · exact h ▸ le_max_left y m
      · obtain ⟨m1, hm1, hle⟩ := ih h
        rw [hys] at hm1
        cases hm1
        exact le_trans hle (le_max_right y m)

theorem get_col_width_pos (s : Sheet) (c : Nat) (e : (Nat × Nat) × String)
    (he : e ∈ s.units) (hc : e.1.1 = c) :
    1 ≤ (s.get_col_width c).getD 0 := by
  unfold Sheet.get_col_width
  have hf : e ∈ s.units.filter (fun e => decide (e.1.1 = c)) :=
    List.mem_filter.mpr ⟨he, by simp [hc]⟩
  have hm := List.mem_map_of_mem (fun e => measure_width e.2 s.tab_size) hf
  obtain ⟨m, hmax, hle⟩ := listMax?_ge _ _ hm
  rw [hmax]
  exact le_trans (Nat.le_add_left 1 _) hle

theorem remove_col_inv (s : Sheet) (i : Nat) (h : WidthsInvariant s) :
    WidthsInvariant (s.remove_col i) := by
  unfold Sheet.remove_col
  split
  · exact h
  · exact ⟨fun w hw => h.1 w (mem_of_mem_eraseIdx_nat hw), rfl⟩

theorem remove_row_inv (s : Sheet) (i : Nat) (h : WidthsInvariant s) :
    WidthsInvariant (s.remove_row i) := by
  unfold Sheet.remove_row
  split
  · exact h
  · exact ⟨h.1, h.2⟩

/-- C7 (counterexample): one edit applied to the fresh sheet — at
column 2, one past the cursor-reachable range — leaves
`widths = [0, 1]` (an entry below 1, inherited from `Sheet::new`) and
`size.0 = 3 ≠ 2 = widths.len()`. -/
theorem c7_counterexample :
    (Sheet.edit Sheet.new (2, 0) "x").widths = [0, 1] ∧
    ¬ (∀ w ∈ (Sheet.edit Sheet.new (2, 0) "x").widths, 1 ≤ w) ∧
    (Sheet.edit Sheet.new (2, 0) "x").size.1 = 3 ∧
    (Sheet.edit Sheet.new (2, 0) "x").widths.length = 2 := by
  decide

/-- C7 (amended): `edit` preserves the width/size invariant — if
before the edit every `widths` entry is at least 1, `size.0` equals
`widths.len()`, and the edited column index is at most `widths.len()`,
then both invariant clauses hold after the edit.  (The unamended claim
fails from the initial `Sheet::new` state, whose `widths` is `[0]`,
and for gap edits beyond `widths.len()`.) -/
theorem c7_edit_preserves_inv (s : Sheet) (pos : Nat × Nat) (buf : String)
    (h : WidthsInvariant s) (h3 : pos.1 ≤ s.widths.length) :
    WidthsInvariant (Sheet.edit s pos buf) := by
  suffices hc : WidthsInvariant (Sheet.edit_core s pos buf) by exact hc
  obtain ⟨h1, h2⟩ := h
  unfold Sheet.edit_core
  by_cases hb : buf = ""
  · rw [if_pos hb]
    dsimp only
    have i1 : WidthsInvariant { s with units := removeU s.units pos } := ⟨h1, h2⟩
    split <;> split
    all_goals first
      | exact remove_row_inv _ _ (remove_col_inv _ _ i1)
      | exact remove_row_inv _ _ i1
      | exact remove_col_inv _ _ i1
      | exact i1
  · rw [if_neg hb]
    dsimp only
    cases hget : s.widths.get? pos.1 with
    | some n =>
      obtain ⟨hlt, -⟩ := List.get?_eq_some.mp hget
      have hmem : ((pos, rustTrim buf) : (Nat × Nat) × String) ∈
          insertU s.units pos (rustTrim buf) :=
        List.mem_append.mpr (Or.inr (List.mem_singleton.mpr rfl))
      dsimp only
      split
      · constructor
        · intro w hw
          rcases List.mem_or_eq_of_mem_set hw with hmem2 | heq
          · exact h1 w hmem2
          · rw [heq]
            exact get_col_width_pos _ pos.1 (pos, rustTrim buf) hmem rfl
        · simp only [List.length_set]
          omega
      · exact ⟨h1, by dsimp only; omega⟩
    | none =>
      have hge := List.get?_eq_none.mp hget
      dsimp only
      constructor
      · intro w hw
        rcases List.mem_append.mp hw with hmem2 | heq
        · exact h1 w hmem2
        · rw [List.mem_singleton.mp heq]
          exact Nat.le_add_left 1 _
      · simp only [List.length_append, List.length_singleton]
        omega

/-- C7 (witness): the preserved invariant instantiated on the
one-cell sheet loaded from `"a\n"`, edited at `(0, 0)` with `"xx"`. -/
theorem c7_witness :
    WidthsInvariant (Sheet.edit (Sheet.from_str "a\n" ⟨8⟩) (0, 0) "xx") :=
  c7_edit_preserves_inv (Sheet.from_str "a\n" ⟨8⟩) (0, 0) "xx" (by decide) (by decide)

theorem satAddSigned_zero (n : Nat) : satAddSigned n 0 = n := by
  unfold satAddSigned
  omega

theorem satAddSigned_one (n : Nat) : satAddSigned n 1 = n + 1 := by
  unfold satAddSigned
  omega

theorem applyMoves_append (s : Sheet) (tw th : Nat) (ms1 ms2 : List (Int × Int)) :
    ∀ st : EState,
      applyMoves s tw th st (ms1 ++ ms2) =
        (applyMoves s tw th st ms1).bind (fun st1 => applyMoves s tw th st1 ms2) := by
  induction ms1 with
  | nil => intro st; simp [applyMoves]
  | cons m ms ih =>
    intro st
    simp only [List.cons_append, applyMoves, Option.bind_eq_bind]
    cases move_pos_by s tw th st m.1 m.2 with
    | none => simp
    | some st1 => simpa using ih st1

theorem move_pos_by_down_one (s : Sheet) (tw th p c : Nat)
    (hacc : 0 < s.accum_widths.length) (hp : p + 1 ≤ s.size.2) :
    move_pos_by s tw th ⟨(0, p), (0, c)⟩ 0 1 =
      some ⟨(0, p + 1),
            (0, if ¬ is_in_offset_bounds (p + 1) c (th - 1) then c + 1 else c)⟩ := by
  obtain ⟨a, ha⟩ : ∃ a, s.accum_widths.get? 0 = some a := by
    cases hl : s.accum_widths.get? 0 with
    | none => rw [List.get?_eq_none] at hl; omega
    | some a => exact ⟨a, rfl⟩
  unfold move_pos_by
  dsimp only
  rw [satAddSigned_zero, satAddSigned_one]
  have h0 : rclamp 0 0 s.size.1 = 0 := by unfold rclamp; omega
  have h1 : rclamp (p + 1) 0 s.size.2 = p + 1 := by unfold rclamp; omega
  rw [h0, h1]
  unfold Sheet.accum_width_at
  rw [ha]
  simp only [Option.bind_eq_bind, Option.some_bind, Option.pure_def, Option.some_inj]
  rw [satAddSigned_one, ite_self]

theorem c8_aux (s : Sheet) (tw R : Nat) (hR : 1 ≤ R) (hsz : R + 1 ≤ s.size.2)
    (hacc : 0 < s.accum_widths.length) :
    ∀ k, k ≤ R + 1 →
      applyMoves s tw (R + 1) ⟨(0, 0), (0, 0)⟩ (List.replicate k ((0 : Int), (1 : Int))) =
        some ⟨(0, k), (0, k - (R - 1))⟩ := by
  intro k
  induction k with
  | zero =>
    intro _
    simp [applyMoves]
  | succ k ih =>
    intro hk
    rw [List.replicate_succ', applyMoves_append, ih (by omega)]
    have hstep := move_pos_by_down_one s tw (R + 1) k (k - (R - 1)) hacc (by omega)
    simp only [Option.some_bind, applyMoves, Option.bind_eq_bind]
    rw [hstep]
    simp only [applyMoves, Option.some_bind, Option.some_inj]
    have harith : (if ¬ is_in_offset_bounds (k + 1) (k - (R - 1)) (R + 1 - 1) then
        k - (R - 1) + 1 else k - (R - 1)) = k + 1 - (R - 1) := by
      by_cases hb : is_in_offset_bounds (k + 1) (k - (R - 1)) (R + 1 - 1)
      · rw [if_neg (not_not_intro hb)]
        unfold is_in_offset_bounds at hb
        omega
      · rw [if_pos hb]
        unfold is_in_offset_bounds at hb
        omega
    rw [harith]

/-- C8 (counterexample): with terminal height 4 (so R = 3 content
rows), cursor and corner at row 0 on a five-row sheet, performing the
down-by-one move R + 1 = 4 times leaves `corner.row = 2`, not 1: the
corner already shifts at move R (when the cursor first exits the
window) and shifts again at move R + 1. -/
theorem c8_counterexample :
    (applyMoves (Sheet.from_str "a\nb\nc\nd\ne\n" ⟨8⟩) 80 4 ⟨(0, 0), (0, 0)⟩
        (List.replicate 4 ((0 : Int), (1 : Int)))).map (fun st => st.corner.2) ≠ some 1 ∧
    (applyMoves (Sheet.from_str "a\nb\nc\nd\ne\n" ⟨8⟩) 80 4 ⟨(0, 0), (0, 0)⟩
        (List.replicate 4 ((0 : Int), (1 : Int)))).map (fun st => st.corner.2) = some 2 := by
  decide

/-- C8 (amended): with R content rows (terminal height R + 1, one row
reserved for the command line), cursor and corner starting at row 0 on
a sheet of at least R + 1 rows, performing the down-by-one move R + 1
times leaves `corner.row` equal to exactly 2: the corner shifts by the
overflow amount each time the cursor exits the window, which happens
at move R and again at move R + 1. -/
theorem c8_corner_after_moves (s : Sheet) (tw R : Nat) (hR : 1 ≤ R)
    (hsz : R + 1 ≤ s.size.2) (hacc : 0 < s.accum_widths.length) :
    (applyMoves s tw (R + 1) ⟨(0, 0), (0, 0)⟩
        (List.replicate (R + 1) ((0 : Int), (1 : Int)))).map (fun st => st.corner.2) =
      some 2 := by
  rw [c8_aux s tw R hR hsz hacc (R + 1) (le_refl _)]
  simp only [Option.map_some', Option.some_inj]
  omega

/-- C8 (witness): the amended scrolling behaviour instantiated with
R = 3 on the five-row sheet loaded from `"a\nb\nc\nd\ne\n"`. -/
theorem c8_witness :
    (applyMoves (Sheet.from_str "a\nb\nc\nd\ne\n" ⟨8⟩) 80 (3 + 1) ⟨(0, 0), (0, 0)⟩
        (List.replicate (3 + 1) ((0 : Int), (1 : Int)))).map (fun st => st.corner.2) =
      some 2 :=
  c8_corner_after_moves (Sheet.from_str "a\nb\nc\nd\ne\n" ⟨8⟩) 80 3 (by decide)
    (by decide) (by decide)

end TabOTxt
